import Mathlib

/-!
Verification of the sandboxed file/patch engine
(`src/spendmend_adk/tools/fs_tools.py`).

The Python module is shallowly embedded below.  Conventions of the
embedding:

* Paths are plain strings; POSIX path canonicalisation (`Path.resolve`,
  which follows symlinks and eliminates `..` segments) is an abstract
  function `resolve : String → String` carried by the sandbox
  configuration, because its result depends on the state of the real
  file system.  CPython raises `ValueError` ("embedded null byte") when
  a path containing a NUL byte reaches any `os` call, including
  `Path.resolve`; this is modelled explicitly.
* `Path.relative_to` succeeds exactly when the path components of the
  candidate extend the path components of the root; `isWithin` models
  that.
* File contents are byte lists (`List Nat`, each entry < 256).  The flat
  file-system view used by read/write/patch maps an absolute path to a
  node (`FNode`); the tree view used by `list_directory` (which observes
  the file system through `iterdir`) is a separate inductive (`FSEntry`).
* Fallible Python code is `Except String _`: the `error` constructor is
  an exception propagating out of the tool function, while structured
  `ok: false` responses are ordinary return values.
* Text encodings are a `Codec` value (the Python code looks codecs up
  by name); the UTF-8 and ASCII codecs are defined concretely.
* I/O faults that the abstract machine cannot produce (disk full,
  permission errors, races) are not modelled: `mkdir`, `shutil.copy2`
  between distinct paths and `open` on an existing regular file succeed.
-/

namespace FsTools

/-! ### String helpers

The Python code manipulates `str` values with `split`, `strip`,
`startswith`, slicing and the `in` operator.  These are modelled by
structurally recursive functions over `String.data` so that concrete
runs reduce definitionally. -/

/-- Decides whether the first list is an initial segment of the second
(`str.startswith`, `bytes.startswith`, `Path.relative_to`). -/
def isInitSeg {α : Type} [BEq α] : List α → List α → Bool
  | [], _ => true
  | _ :: _, [] => false
  | a :: as, b :: bs => a == b && isInitSeg as bs

/-- Decides whether the first list occurs as a contiguous segment of the
second (the Python `in` operator on strings). -/
def hasSeg {α : Type} [BEq α] (pat : List α) : List α → Bool
  | [] => pat.isEmpty
  | l => isInitSeg pat l || match l with
      | [] => false
      | _ :: t => hasSeg pat t

/-- Models `s.startswith(pre)`. -/
def strStarts (s pre : String) : Bool := isInitSeg pre.data s.data

/-- Models `sub in s`. -/
def strHas (s sub : String) : Bool := hasSeg sub.data s.data

/-- Models the slice `s[n:]` (`n` counted in characters; the sliced
prefixes in the source are ASCII). -/
def strDrop (s : String) (n : Nat) : String := String.mk (s.data.drop n)

/-- Splits a character list at every occurrence of `sep`, keeping empty
segments, like Python `str.split(sep)` with a one-character separator. -/
def splitChars (sep : Char) : List Char → List (List Char)
  | [] => [[]]
  | c :: cs =>
    let r := splitChars sep cs
    if c == sep then [] :: r
    else match r with
      | h :: t => (c :: h) :: t
      | [] => [[c]]

/-- Models Python `s.split(sep)` for a one-character separator. -/
def pySplit (sep : Char) (s : String) : List String :=
  (splitChars sep s.data).map String.mk

/-- Python `str.strip()` whitespace (the ASCII part; the paths occurring
in diff headers contain no exotic Unicode whitespace). -/
def isPyWhitespace (c : Char) : Bool :=
  c == ' ' || c == '\t' || c == '\n' || c == '\r' ||
  c == Char.ofNat 11 || c == Char.ofNat 12

/-- Models `s.strip()`. -/
def pyStrip (s : String) : String :=
  String.mk ((((s.data.dropWhile isPyWhitespace).reverse).dropWhile
    isPyWhitespace).reverse)

/-- Joins a list of strings with a separator (Python `sep.join(parts)`). -/
def joinWith (sep : String) : List String → String
  | [] => ""
  | [s] => s
  | s :: rest => s ++ sep ++ joinWith sep rest

/-- Nonempty components of a POSIX path. -/
def pathParts (p : String) : List String :=
  (pySplit '/' p).filter (fun s => s ≠ "")

/-- Models a successful `p.relative_to(root)` for canonical absolute
paths: the components of `root` are an initial segment of the components
of `p`. -/
def isWithin (p root : String) : Bool :=
  isInitSeg (pathParts root) (pathParts p)

/-- Whether the string contains a NUL byte.  CPython raises
`ValueError: embedded null byte` when such a string reaches a file-system
call such as `Path.resolve`. -/
def hasNulStr (s : String) : Bool := s.data.contains (Char.ofNat 0)

/-! ### Size-limit constants (`fs_tools.py` lines 38-43) -/

def MAX_READ_FILE_SIZE : Nat := 1 * 1024 * 1024
def MAX_WRITE_FILE_SIZE : Nat := 500 * 1024
def MAX_DIRECTORY_ENTRIES : Nat := 10000
def MAX_RECURSION_DEPTH : Nat := 20

/-! ### UTF-8

`_is_binary_file` decodes the prefix with the (hard-coded) UTF-8 codec,
and the default `encoding` argument of the read/write tools is
`"utf-8"`.  The encoder and the strict decoder (rejecting truncated
sequences, overlong forms, surrogates and values above U+10FFFF, exactly
like CPython `bytes.decode("utf-8")`) are given concretely, together
with the round-trip theorem. -/

/-- Standard UTF-8 encoding of one scalar value. -/
def utf8EncodeChar (c : Char) : List Nat :=
  if c.toNat < 0x80 then [c.toNat]
  else if c.toNat < 0x800 then [0xC0 + c.toNat / 64, 0x80 + c.toNat % 64]
  else if c.toNat < 0x10000 then
    [0xE0 + c.toNat / 4096, 0x80 + c.toNat / 64 % 64, 0x80 + c.toNat % 64]
  else
    [0xF0 + c.toNat / 262144, 0x80 + c.toNat / 4096 % 64,
     0x80 + c.toNat / 64 % 64, 0x80 + c.toNat % 64]

/-- UTF-8 encoding of a character list. -/
def utf8EncodeList : List Char → List Nat
  | [] => []
  | c :: cs => utf8EncodeChar c ++ utf8EncodeList cs

/-- Models Python `s.encode("utf-8")` (total: Lean strings contain no
lone surrogates). -/
def utf8Encode (s : String) : List Nat := utf8EncodeList s.data

mutual
/-- Strict UTF-8 decoder; `none` models `UnicodeDecodeError`.  The
helpers `utf8DecTwo`, `utf8DecThree`, `utf8DecFour` consume the
continuation bytes of a two/three/four byte sequence whose lead byte was
already classified. -/
def utf8Decode : List Nat → Option (List Char)
  | [] => some []
  | b0 :: rest =>
    if b0 < 0x80 then
      (utf8Decode rest).map (fun cs => Char.ofNat b0 :: cs)
    else if b0 < 0xC2 then none
    else if b0 < 0xE0 then utf8DecTwo b0 rest
    else if b0 < 0xF0 then utf8DecThree b0 rest
    else if b0 < 0xF5 then utf8DecFour b0 rest
    else none

def utf8DecTwo (b0 : Nat) : List Nat → Option (List Char)
  | b1 :: rest2 =>
    if 0x80 ≤ b1 ∧ b1 < 0xC0 then
      (utf8Decode rest2).map
        (fun cs => Char.ofNat ((b0 - 0xC0) * 64 + (b1 - 0x80)) :: cs)
    else none
  | [] => none

def utf8DecThree (b0 : Nat) : List Nat → Option (List Char)
  | b1 :: b2 :: rest3 =>
    if (0x80 ≤ b1 ∧ b1 < 0xC0) ∧ (0x80 ≤ b2 ∧ b2 < 0xC0) then
      if (b0 - 0xE0) * 4096 + (b1 - 0x80) * 64 + (b2 - 0x80) < 0x800 then
        none
      else if 0xD800 ≤ (b0 - 0xE0) * 4096 + (b1 - 0x80) * 64 + (b2 - 0x80) ∧
          (b0 - 0xE0) * 4096 + (b1 - 0x80) * 64 + (b2 - 0x80) < 0xE000 then
        none
      else
        (utf8Decode rest3).map (fun cs =>
          Char.ofNat ((b0 - 0xE0) * 4096 + (b1 - 0x80) * 64 + (b2 - 0x80)) :: cs)
    else none
  | _ => none

def utf8DecFour (b0 : Nat) : List Nat → Option (List Char)
  | b1 :: b2 :: b3 :: rest4 =>
    if (0x80 ≤ b1 ∧ b1 < 0xC0) ∧ (0x80 ≤ b2 ∧ b2 < 0xC0) ∧
        (0x80 ≤ b3 ∧ b3 < 0xC0) then
      if (b0 - 0xF0) * 262144 + (b1 - 0x80) * 4096 + (b2 - 0x80) * 64 +
          (b3 - 0x80) < 0x10000 then
        none
      else if 0x110000 ≤ (b0 - 0xF0) * 262144 + (b1 - 0x80) * 4096 +
          (b2 - 0x80) * 64 + (b3 - 0x80) then
        none
      else
        (utf8Decode rest4).map (fun cs =>
          Char.ofNat ((b0 - 0xF0) * 262144 + (b1 - 0x80) * 4096 +
            (b2 - 0x80) * 64 + (b3 - 0x80)) :: cs)
    else none
  | _ => none
end

theorem utf8Decode_one (b0 : Nat) (bs : List Nat) (h : b0 < 0x80) :
    utf8Decode (b0 :: bs) =
      (utf8Decode bs).map (fun cs => Char.ofNat b0 :: cs) := by
  rw [utf8Decode.eq_2, if_pos h]

theorem utf8Decode_two (b0 b1 : Nat) (bs : List Nat)
    (ha : 0xC2 ≤ b0) (hb : b0 < 0xE0) (hc : 0x80 ≤ b1) (hd : b1 < 0xC0) :
    utf8Decode (b0 :: b1 :: bs) =
      (utf8Decode bs).map
        (fun cs => Char.ofNat ((b0 - 0xC0) * 64 + (b1 - 0x80)) :: cs) := by
  rw [utf8Decode.eq_2, if_neg (by omega), if_neg (by omega), if_pos hb,
    utf8DecTwo.eq_1, if_pos ⟨hc, hd⟩]

theorem utf8Decode_three (b0 b1 b2 : Nat) (bs : List Nat)
    (ha : 0xE0 ≤ b0) (hb : b0 < 0xF0) (hc : 0x80 ≤ b1) (hd : b1 < 0xC0)
    (he : 0x80 ≤ b2) (hf : b2 < 0xC0)
    (hlo : ¬ ((b0 - 0xE0) * 4096 + (b1 - 0x80) * 64 + (b2 - 0x80) < 0x800))
    (hsur : ¬ (0xD800 ≤ (b0 - 0xE0) * 4096 + (b1 - 0x80) * 64 + (b2 - 0x80) ∧
        (b0 - 0xE0) * 4096 + (b1 - 0x80) * 64 + (b2 - 0x80) < 0xE000)) :
    utf8Decode (b0 :: b1 :: b2 :: bs) =
      (utf8Decode bs).map (fun cs =>
        Char.ofNat ((b0 - 0xE0) * 4096 + (b1 - 0x80) * 64 + (b2 - 0x80)) :: cs) := by
  rw [utf8Decode.eq_2, if_neg (by omega), if_neg (by omega),
    if_neg (by omega), if_pos hb, utf8DecThree.eq_1,
    if_pos ⟨⟨hc, hd⟩, he, hf⟩, if_neg hlo, if_neg hsur]

theorem utf8Decode_four (b0 b1 b2 b3 : Nat) (bs : List Nat)
    (ha : 0xF0 ≤ b0) (hb : b0 < 0xF5) (hc : 0x80 ≤ b1) (hd : b1 < 0xC0)
    (he : 0x80 ≤ b2) (hf : b2 < 0xC0) (hg : 0x80 ≤ b3) (hh : b3 < 0xC0)
    (hlo : ¬ ((b0 - 0xF0) * 262144 + (b1 - 0x80) * 4096 + (b2 - 0x80) * 64 +
        (b3 - 0x80) < 0x10000))
    (hhi : ¬ (0x110000 ≤ (b0 - 0xF0) * 262144 + (b1 - 0x80) * 4096 +
        (b2 - 0x80) * 64 + (b3 - 0x80))) :
    utf8Decode (b0 :: b1 :: b2 :: b3 :: bs) =
      (utf8Decode bs).map (fun cs =>
        Char.ofNat ((b0 - 0xF0) * 262144 + (b1 - 0x80) * 4096 +
          (b2 - 0x80) * 64 + (b3 - 0x80)) :: cs) := by
  rw [utf8Decode.eq_2, if_neg (by omega), if_neg (by omega),
    if_neg (by omega), if_neg (by omega), if_pos hb, utf8DecFour.eq_1,
    if_pos ⟨⟨hc, hd⟩, ⟨he, hf⟩, hg, hh⟩, if_neg hlo, if_neg hhi]

theorem utf8Decode_encodeChar_append (c : Char) (bs : List Nat) :
    utf8Decode (utf8EncodeChar c ++ bs) =
      (utf8Decode bs).map (fun cs => c :: cs) := by
  have hvalid : c.toNat < 0xD800 ∨ (0xDFFF < c.toNat ∧ c.toNat < 0x110000) :=
    c.valid
  by_cases h1 : c.toNat < 0x80
  · rw [show utf8EncodeChar c = [c.toNat] from by
      simp only [utf8EncodeChar]; rw [if_pos h1]]
    simp only [List.cons_append, List.nil_append]
    rw [utf8Decode_one _ _ h1]
    simp only [Char.ofNat_toNat]
  · by_cases h2 : c.toNat < 0x800
    · rw [show utf8EncodeChar c = [0xC0 + c.toNat / 64, 0x80 + c.toNat % 64]
        from by simp only [utf8EncodeChar]; rw [if_neg h1, if_pos h2]]
      simp only [List.cons_append, List.nil_append]
      rw [utf8Decode_two _ _ _ (by omega) (by omega) (by omega) (by omega)]
      simp only [show (0xC0 + c.toNat / 64 - 0xC0) * 64 +
        (0x80 + c.toNat % 64 - 0x80) = c.toNat from by omega, Char.ofNat_toNat]
    · by_cases h3 : c.toNat < 0x10000
      · rw [show utf8EncodeChar c =
            [0xE0 + c.toNat / 4096, 0x80 + c.toNat / 64 % 64, 0x80 + c.toNat % 64]
          from by simp only [utf8EncodeChar]; rw [if_neg h1, if_neg h2, if_pos h3]]
        simp only [List.cons_append, List.nil_append]
        rw [utf8Decode_three _ _ _ _ (by omega) (by omega) (by omega) (by omega)
          (by omega) (by omega) (by omega) (by omega)]
        simp only [show (0xE0 + c.toNat / 4096 - 0xE0) * 4096 +
          (0x80 + c.toNat / 64 % 64 - 0x80) * 64 + (0x80 + c.toNat % 64 - 0x80) =
          c.toNat from by omega, Char.ofNat_toNat]
      · have h4 : c.toNat < 0x110000 := by omega
        rw [show utf8EncodeChar c =
            [0xF0 + c.toNat / 262144, 0x80 + c.toNat / 4096 % 64,
             0x80 + c.toNat / 64 % 64, 0x80 + c.toNat % 64]
          from by
            simp only [utf8EncodeChar]; rw [if_neg h1, if_neg h2, if_neg h3]]
        simp only [List.cons_append, List.nil_append]
        rw [utf8Decode_four _ _ _ _ _ (by omega) (by omega) (by omega) (by omega)
          (by omega) (by omega) (by omega) (by omega) (by omega) (by omega)]
        simp only [show (0xF0 + c.toNat / 262144 - 0xF0) * 262144 +
          (0x80 + c.toNat / 4096 % 64 - 0x80) * 4096 +
          (0x80 + c.toNat / 64 % 64 - 0x80) * 64 + (0x80 + c.toNat % 64 - 0x80) =
          c.toNat from by omega, Char.ofNat_toNat]

theorem utf8Decode_encodeList (cs : List Char) :
    utf8Decode (utf8EncodeList cs) = some cs := by
  induction cs with
  | nil => rfl
  | cons c cs ih =>
    rw [utf8EncodeList, utf8Decode_encodeChar_append, ih]
    rfl

/-- Round trip: decoding the UTF-8 encoding of a string recovers it. -/
theorem utf8Decode_utf8Encode (s : String) :
    utf8Decode (utf8Encode s) = some s.data :=
  utf8Decode_encodeList s.data

/-! ### Codecs

The Python tools receive an `encoding` name and look the codec up at
call time; here the codec is passed as a value.  An unknown codec name
(Python `LookupError`) or an unencodable character (Python
`UnicodeEncodeError`) is the `Except.error` case of `encode`. -/

structure Codec where
  encode : String → Except String (List Nat)
  decode : List Nat → Except String String

/-- The default codec (`DEFAULT_ENCODING = "utf-8"`). -/
def utf8Codec : Codec where
  encode s := .ok (utf8Encode s)
  decode bs :=
    match utf8Decode bs with
    | some cs => .ok (String.mk cs)
    | none => .error "UnicodeDecodeError"

/-- The Python `"ascii"` codec: encoding fails on any code point ≥ 128. -/
def asciiCodec : Codec where
  encode s :=
    if s.data.all (fun c => c.toNat < 128) then .ok (s.data.map Char.toNat)
    else .error "UnicodeEncodeError: ascii codec cannot encode character"
  decode bs :=
    if bs.all (fun b => b < 128) then .ok (String.mk (bs.map Char.ofNat))
    else .error "UnicodeDecodeError"

/-! ### Path sandbox (`_get_workspace_root`, `_get_allowed_repo_roots`,
`_validate_path_in_sandbox`, `_check_in_allowed_roots`) -/

/-- Sandbox configuration.  `workspaceRoot` is the resolved
`settings.workspace_root`; `allowedRoots` is the parsed
`ALLOWED_REPO_ROOTS` list (or the default `[workspaceRoot]` when the
variable is unset); `resolve` abstracts `Path.resolve` canonicalisation
(symlink expansion and `..` elimination), whose result depends on the
real directory structure. -/
structure SandboxCfg where
  workspaceRoot : String
  allowedRoots : List String
  resolve : String → String

/-- Result of `_validate_path_in_sandbox` (the `(is_valid, error,
resolved_path)` tuple of the source). -/
inductive SbxResult where
  | valid (resolved : String)
  | invalid (msg : String)
deriving DecidableEq

/-- Models `_validate_path_in_sandbox` (lines 204-236): join a relative
path to the workspace root, canonicalise, and require the result to stay
under the workspace root.  Creating a missing workspace root (lines
217-221) always succeeds in the abstract model.  `Path.resolve` raises
`ValueError` when the path contains a NUL byte; this is the
`Except.error` case. -/
def validate_path_in_sandbox (cfg : SandboxCfg) (path : String) :
    Except String SbxResult :=
  let joined :=
    if strStarts path "/" then path else cfg.workspaceRoot ++ "/" ++ path
  if hasNulStr joined then .error "ValueError: embedded null byte"
  else
    let resolved := cfg.resolve joined
    if isWithin resolved cfg.workspaceRoot then .ok (.valid resolved)
    else
      .ok (.invalid ("Path " ++ path ++ " is outside workspace sandbox " ++
        cfg.workspaceRoot))

/-- Models `_check_in_allowed_roots` (lines 180-201): the resolved path
must be equal to or a descendant of at least one allowed root. -/
def check_in_allowed_roots (cfg : SandboxCfg) (p : String) : Bool × String :=
  if cfg.allowedRoots.any (fun root => isWithin p root) then (true, "")
  else
    (false, "Path " ++ p ++ " is not within allowed repo roots: " ++
      joinWith ", " cfg.allowedRoots)

/-! ### Flat file-system view (read / write / patch)

Maps an absolute path string to a node.  `list_directory` uses the
separate tree view further below, because it observes children via
`iterdir`. -/

/-- A node of the flat file-system view. -/
inductive FNode where
  | missing
  | directory
  | fileNode (bytes : List Nat)
deriving DecidableEq

def Fs : Type := String → FNode

/-- Pointwise update of the flat view (all mutations of the abstract
disk go through this). -/
def fsUpdate (fs : Fs) (p : String) (n : FNode) : Fs :=
  fun q => if q = p then n else fs q

/-! ### Binary detection (`BINARY_MAGIC_BYTES`, `_is_binary_file`,
lines 45-57 and 109-146) -/

/-- The fixed signature table (line 46-57): ELF, PE (`MZ`), PNG, JPEG,
GIF, ZIP, GZIP, BZIP2, ICO, PDF. -/
def BINARY_MAGIC_BYTES : List (List Nat) :=
  [[0x7F, 0x45, 0x4C, 0x46],
   [0x4D, 0x5A],
   [0x89, 0x50, 0x4E, 0x47],
   [0xFF, 0xD8],
   [0x47, 0x49, 0x46, 0x38],
   [0x50, 0x4B, 0x03, 0x04],
   [0x1F, 0x8B],
   [0x42, 0x5A, 0x68],
   [0x00, 0x00, 0x01, 0x00],
   [0x25, 0x50, 0x44, 0x46]]

/-- Models `_is_binary_file` (lines 109-146).  `content?` is the result
of opening the file: `none` when `open`/`read` raises (the function then
answers `true`, treating unreadable data as binary).  The magic bytes
are compared against `f.read(min(check_bytes, 8))`; the NUL scan and the
UTF-8 decode run on `f.read(check_bytes)`. -/
def is_binary_file (checkBytes : Nat) (content? : Option (List Nat)) : Bool :=
  match content? with
  | none => true
  | some bytes =>
    if BINARY_MAGIC_BYTES.any
        (fun magic => isInitSeg magic (bytes.take (min checkBytes 8))) then
      true
    else if (bytes.take checkBytes).contains 0 then true
    else if (utf8Decode (bytes.take checkBytes)).isSome then false
    else true

/-! ### `read_local_file` (lines 239-332) -/

structure ReadArgs where
  path : String
  maxSize : Nat := MAX_READ_FILE_SIZE
  maxLines : Nat := 1000

structure ReadResp where
  ok : Bool
  content : String := ""
  path : String := ""
  size : Nat := 0
  error : String := ""
deriving DecidableEq

/-- Models `read_local_file`.  `codec` is the codec named by the
`encoding` argument (default UTF-8).  `stat` on an existing node
succeeds in the abstract model, so the `OSError` branch of line 290-293
is unreachable here. -/
def read_local_file (cfg : SandboxCfg) (codec : Codec) (fs : Fs)
    (a : ReadArgs) : Except String ReadResp :=
  if a.path = "" then .ok { ok := false, error := "path is required" }
  else
    match validate_path_in_sandbox cfg a.path with
    | .error e => .error e
    | .ok (.invalid msg) => .ok { ok := false, error := msg, path := a.path }
    | .ok (.valid resolved) =>
      match check_in_allowed_roots cfg resolved with
      | (false, msg) => .ok { ok := false, error := msg, path := resolved }
      | (true, _) =>
        match fs resolved with
        | .missing =>
          .ok { ok := false, error := "File not found: " ++ resolved,
                path := resolved }
        | .directory =>
          .ok { ok := false, error := "Path is not a file: " ++ resolved,
                path := resolved }
        | .fileNode bytes =>
          if a.maxSize < bytes.length then
            .ok { ok := false,
                  error := "File size (" ++ toString bytes.length ++
                    " bytes) exceeds maximum (" ++ toString a.maxSize ++
                    " bytes)",
                  path := resolved, size := bytes.length }
          else if is_binary_file 8192 (some bytes) then
            .ok { ok := false,
                  error := "Binary file detected - cannot read binary files",
                  path := resolved, size := bytes.length }
          else
            match codec.decode bytes with
            | .error e =>
              .ok { ok := false, error := "Encoding error: " ++ e,
                    path := resolved }
            | .ok content =>
              let content2 :=
                if 0 < a.maxLines then
                  if a.maxLines < (pySplit '\n' content).length then
                    joinWith "\n" ((pySplit '\n' content).take a.maxLines) ++
                      "\n... (truncated, showing " ++ toString a.maxLines ++
                      " of " ++ toString (pySplit '\n' content).length ++
                      " lines)"
                  else content
                else content
              .ok { ok := true, content := content2, path := resolved,
                    size := bytes.length }

/-! ### `_create_backup` (lines 149-177) and `write_local_file`
(lines 335-422) -/

/-- Models `_create_backup`: no-op when the path does not exist; copies
to `path + ".bak"`, or to a timestamped `path + "." + ts + ".bak"` when
that backup already exists.  `shutil.copy2` on a directory raises and is
caught (returns `none`); copying a regular file in the abstract model
succeeds (the caught copy-failure branch of lines 173-177 cannot fire). -/
def create_backup (fs : Fs) (ts : String) (p : String) : Fs × Option String :=
  match fs p with
  | .missing => (fs, none)
  | .directory => (fs, none)
  | .fileNode b =>
    let bak := p ++ ".bak"
    let target := if fs bak ≠ FNode.missing then p ++ "." ++ ts ++ ".bak"
      else bak
    (fsUpdate fs target (.fileNode b), some target)

/-- The parent directory of a canonical absolute path (`Path.parent`). -/
def parentOf (p : String) : String :=
  match (pathParts p).dropLast with
  | [] => "/"
  | ps => "/" ++ joinWith "/" ps

/-- All ancestor directories created by `mkdir(parents=True)` for `p`,
innermost last. -/
def ancestorPaths (p : String) : List String :=
  (List.range (pathParts p).length).map
    (fun i => "/" ++ joinWith "/" ((pathParts p).take (i + 1)))

/-- Models `parent_dir.mkdir(parents=True, exist_ok=True)`. -/
def mkdirParents (fs : Fs) (p : String) : Fs :=
  (ancestorPaths p).foldl (fun f q => fsUpdate f q .directory) fs

structure WriteArgs where
  path : String
  content : String
  createDirs : Bool := true
  createBackup : Bool := true

structure WriteResp where
  ok : Bool
  path : String := ""
  size : Nat := 0
  message : String := ""
  backupPath : Option String := none
  error : String := ""
deriving DecidableEq

/-- Models `write_local_file`.  The `content.encode(encoding)` call of
line 372 runs before the try block guarding the actual write, so a codec
failure there is an uncaught exception (`Except.error`), while the same
failure inside the write step (line 419) is caught and produces an
`ok: false` response.  `ts` is the timestamp `_create_backup` would use
for a second backup of the same file. -/
def write_local_file (cfg : SandboxCfg) (codec : Codec) (fs : Fs)
    (ts : String) (a : WriteArgs) : Except String (WriteResp × Fs) :=
  if a.path = "" then .ok ({ ok := false, error := "path is required" }, fs)
  else
    match codec.encode a.content with
    | .error e => .error e
    | .ok bytes =>
      if MAX_WRITE_FILE_SIZE < bytes.length then
        .ok ({ ok := false,
               error := "Content size (" ++ toString bytes.length ++
                 " bytes) exceeds maximum (" ++
                 toString MAX_WRITE_FILE_SIZE ++ " bytes)",
               path := a.path }, fs)
      else
        match validate_path_in_sandbox cfg a.path with
        | .error e => .error e
        | .ok (.invalid msg) =>
          .ok ({ ok := false, error := msg, path := a.path }, fs)
        | .ok (.valid resolved) =>
          match check_in_allowed_roots cfg resolved with
          | (false, msg) =>
            .ok ({ ok := false, error := msg, path := resolved }, fs)
          | (true, _) =>
            let parent := parentOf resolved
            if fs parent = FNode.missing ∧ ¬ a.createDirs then
              .ok ({ ok := false,
                     error := "Parent directory does not exist: " ++ parent,
                     path := resolved }, fs)
            else if fs parent = FNode.missing ∧
                (ancestorPaths parent).any
                  (fun q => match fs q with
                    | .fileNode _ => true
                    | _ => false) then
              -- mkdir(parents=True) raises OSError when an ancestor
              -- exists as a regular file (caught at line 396-397)
              .ok ({ ok := false,
                     error := "Cannot create parent directory: " ++ parent,
                     path := resolved }, fs)
            else
              let fs1 := if fs parent = FNode.missing then
                  mkdirParents fs parent
                else fs
              let backed :=
                if a.createBackup ∧ fs1 resolved ≠ FNode.missing then
                  create_backup fs1 ts resolved
                else (fs1, none)
              let fs2 := backed.1
              -- write step (`resolved_path.write_text`, inside try):
              -- an OSError (parent not a directory, target is a
              -- directory) is caught and returned as ok: false
              if fs2 parent ≠ FNode.directory then
                .ok ({ ok := false,
                       error := "Write error: not a directory: " ++ parent,
                       path := resolved }, fs2)
              else if fs2 resolved = FNode.directory then
                .ok ({ ok := false,
                       error := "Write error: is a directory: " ++ resolved,
                       path := resolved }, fs2)
              else
                match codec.encode a.content with
                | .error e =>
                  .ok ({ ok := false, error := "Encoding error: " ++ e,
                         path := resolved }, fs2)
                | .ok bytes2 =>
                  let fs3 := fsUpdate fs2 resolved (.fileNode bytes2)
                  .ok ({ ok := true, path := resolved,
                         size := bytes2.length,
                         message := "Successfully wrote " ++
                           toString bytes2.length ++ " bytes to " ++ resolved,
                         backupPath := backed.2 }, fs3)

/-! ### Patch application (`apply_patch_locally`, lines 425-581, with
`_extract_files_from_patch` lines 594-614 and
`_validate_patch_file_paths` lines 617-673)

The external backends (`git apply` / `patch`) mutate the disk through a
subprocess, so the disk effects of one `apply_patch_locally` call are
recorded as an event trace instead of a new `Fs`: creation/deletion of
the temporary patch file, each backup taken, and the backend process
spawn.  The backend result (parsed subprocess output) is a parameter. -/

/-- Models `_extract_files_from_patch`: collect the deduplicated paths
of `--- a/…` and `+++ b/…` header lines, dropping `/dev/null`. -/
def extract_files_from_patch (patch : String) : List String :=
  (pySplit '\n' patch).foldl
    (fun files line =>
      if strStarts line "--- a/" || strStarts line "+++ b/" then
        let p := pyStrip ((pySplit '\t' (strDrop line 6)).headD "")
        if p ≠ "" ∧ files.contains p = false ∧ p ≠ "/dev/null" then
          files ++ [p]
        else files
      else files)
    []

/-- Models `_validate_patch_file_paths`: reject absolute paths, reject
any path containing `..`, then resolve against the target directory and
require the result to stay below the target directory and inside the
allowed roots.  The `(target_dir / file_path).resolve()` call of line
654 raises `ValueError` on an embedded NUL byte; nothing catches it, so
that is the `Except.error` case. -/
def validate_patch_file_paths (cfg : SandboxCfg) (targetDir : String) :
    List String → Except String (Bool × String × List String)
  | [] => .ok (true, "", [])
  | f :: rest =>
    if strStarts f "/" then
      .ok (false, "Absolute path detected in patch: " ++ f, [])
    else if strHas f ".." then
      .ok (false, "Path traversal detected in patch: " ++ f, [])
    else if hasNulStr (targetDir ++ "/" ++ f) then
      .error "ValueError: embedded null byte"
    else
      let fullPath := cfg.resolve (targetDir ++ "/" ++ f)
      if isWithin fullPath targetDir = false then
        .ok (false, "Path escapes target directory after resolution: " ++ f, [])
      else
        match check_in_allowed_roots cfg fullPath with
        | (false, msg) =>
          .ok (false, "Patch file path " ++ f ++ ": " ++ msg, [])
        | (true, _) =>
          match validate_patch_file_paths cfg targetDir rest with
          | .error e => .error e
          | .ok (true, _, vs) => .ok (true, "", f :: vs)
          | .ok (false, msg, _) => .ok (false, msg, [])

/-- Disk-side effects of one `apply_patch_locally` call. -/
inductive Event where
  | tempCreated
  | tempDeleted
  | backupCreated (path : String)
  | backendSpawned (git : Bool)
deriving DecidableEq

def Event.isBackendSpawn : Event → Bool
  | .backendSpawned _ => true
  | _ => false

def Event.isBackupCreated : Event → Bool
  | .backupCreated _ => true
  | _ => false

/-- Parsed outcome of the chosen backend subprocess
(`_apply_with_git` / `_apply_with_patch`): success flag, scraped file
lists, conflict lines and raw error text. -/
structure BackendResult where
  ok : Bool
  filesModified : List String := []
  conflicts : List String := []
  error : String := ""

structure PatchArgs where
  patch_content : String := ""
  target_dir : String := ""
  target_file : String := ""
  dry_run : Bool := false
  strip : Nat := 1
  create_backup : Bool := true

structure ApplyResp where
  ok : Bool
  success : Bool := false
  target_file : String := ""
  error : String := ""
  conflicts : List String := []
  filesModified : List String := []

/-- Whether a regular file exists at `p` (used for the backup loop of
lines 540-546: `_create_backup` produces a backup exactly for existing
regular files). -/
def isFileAt (fs : Fs) (p : String) : Bool :=
  match fs p with
  | .fileNode _ => true
  | _ => false

/-- Models `apply_patch_locally`.  `isGitRepo` abstracts the
version-control marker walk (line 550), `backend` the outcome of the
spawned subprocess.  The temporary patch file is created right before
`_extract_files_from_patch` runs and must be deleted on every exit path;
the event trace records what actually happens: the manual unlink on
validation failure (lines 524-528), the try/finally around the backend
call (lines 548-581), and nothing at all when
`_validate_patch_file_paths` raises. -/
def apply_patch_locally (cfg : SandboxCfg) (fs : Fs) (isGitRepo : Bool)
    (backend : BackendResult) (a : PatchArgs) :
    Except String ApplyResp × List Event :=
  if a.patch_content = "" then
    (.ok { ok := false, error := "patch_content is required",
           target_file := a.target_file }, [])
  else if a.target_dir = "" then
    (.ok { ok := false, error := "target_dir is required" }, [])
  else
    match validate_path_in_sandbox cfg a.target_dir with
    | .error e => (.error e, [])
    | .ok (.invalid msg) =>
      (.ok { ok := false, error := msg, target_file := a.target_file }, [])
    | .ok (.valid tdir) =>
      match check_in_allowed_roots cfg tdir with
      | (false, msg) =>
        (.ok { ok := false, error := msg, target_file := a.target_file }, [])
      | (true, _) =>
        match fs tdir with
        | .missing =>
          (.ok { ok := false,
                 error := "Target directory does not exist: " ++ tdir,
                 target_file := tdir }, [])
        | .fileNode _ =>
          (.ok { ok := false,
                 error := "Target path is not a directory: " ++ tdir,
                 target_file := tdir }, [])
        | .directory =>
          -- the patch body is written to the temporary file here
          let files := extract_files_from_patch a.patch_content
          match validate_patch_file_paths cfg tdir files with
          | .error e => (.error e, [Event.tempCreated])
          | .ok (false, msg, _) =>
            (.ok { ok := false, error := msg,
                   target_file := a.target_file },
             [Event.tempCreated, Event.tempDeleted])
          | .ok (true, _, validated) =>
            let backupEvents :=
              if a.create_backup ∧ a.dry_run = false then
                (validated.filter
                  (fun f => isFileAt fs (tdir ++ "/" ++ f))).map
                  (fun f => Event.backupCreated (tdir ++ "/" ++ f))
              else []
            (.ok { ok := backend.ok, success := backend.ok,
                   target_file :=
                     if a.target_file ≠ "" then a.target_file else tdir,
                   error := backend.error,
                   conflicts := backend.conflicts,
                   filesModified := backend.filesModified },
             [Event.tempCreated] ++ backupEvents ++
               [Event.backendSpawned isGitRepo, Event.tempDeleted])

/-! ### Directory listing (`list_directory` lines 871-932,
`_list_single_level` lines 935-953, `_list_recursive` lines 956-1003,
`_get_entry_info` lines 1006-1017)

The listing observes the file system through `iterdir`, `is_dir`,
`is_file` and `stat`, all of which follow symlinks; the tree view below
records for every entry what those observations yield. -/

/-- A directory-tree entry as observed by the listing code.  A symlink
carries what its resolved target looks like (`is_dir`/`is_file`/`stat`
follow the link); a broken symlink makes `entry.stat()` raise. -/
inductive FSEntry where
  | file (name : String) (size : Nat)
  | dir (name : String) (children : List FSEntry)
  | symlinkFile (name : String) (size : Nat)
  | symlinkDir (name : String) (children : List FSEntry)
  | symlinkBroken (name : String)

def FSEntry.name : FSEntry → String
  | .file n _ => n
  | .dir n _ => n
  | .symlinkFile n _ => n
  | .symlinkDir n _ => n
  | .symlinkBroken n => n

/-- Models `entry.is_dir()` (follows symlinks). -/
def FSEntry.isDir : FSEntry → Bool
  | .dir _ _ => true
  | .symlinkDir _ _ => true
  | _ => false

/-- Models `entry.is_file()` (follows symlinks). -/
def FSEntry.isFile : FSEntry → Bool
  | .file _ _ => true
  | .symlinkFile _ _ => true
  | _ => false

/-- Models `entry.stat().st_size` for entries whose `stat` succeeds. -/
def FSEntry.statSize : FSEntry → Nat
  | .file _ s => s
  | .symlinkFile _ s => s
  | _ => 0

/-- Models whether `entry.stat()` raises `OSError`. -/
def FSEntry.statRaises : FSEntry → Bool
  | .symlinkBroken _ => true
  | _ => false

/-- Models `entry.iterdir()` for entries recursed into. -/
def FSEntry.childrenOf : FSEntry → List FSEntry
  | .dir _ cs => cs
  | .symlinkDir _ cs => cs
  | _ => []

/-- What `list_directory` observes at the resolved path itself. -/
inductive PathNode where
  | missing
  | nonDir
  | dirNode (children : List FSEntry)

structure DirEntry where
  path : String
  name : String
  etype : String
  size : Nat
deriving DecidableEq

/-- Models `_get_entry_info`: `none` when `entry.stat()` raises; the
`type` field is `"directory"` when `is_dir()` holds and `"file"`
otherwise, and `size` is the stat size for regular files and 0
otherwise. -/
def getEntryInfo (parent : String) (e : FSEntry) : Option DirEntry :=
  if e.statRaises then none
  else
    some { path := parent ++ "/" ++ e.name, name := e.name,
           etype := if e.isDir then "directory" else "file",
           size := if e.isFile then e.statSize else 0 }

mutual
def FSEntry.weight : FSEntry → Nat
  | .dir _ cs => 1 + weightList cs
  | .symlinkDir _ cs => 1 + weightList cs
  | _ => 1

def weightList : List FSEntry → Nat
  | [] => 0
  | e :: es => FSEntry.weight e + weightList es
end

theorem weightList_childrenOf_lt (e : FSEntry) :
    weightList e.childrenOf < e.weight := by
  cases e <;> simp [FSEntry.childrenOf, FSEntry.weight, weightList]

theorem weight_pos (e : FSEntry) : 0 < e.weight := by
  cases e <;> simp [FSEntry.weight]

/-- Models `pattern and not fnmatch.fnmatch(entry.name, pattern)`:
whether the pattern filter skips the entry. -/
def patSkip (p? : Option (String → Bool)) (n : String) : Bool :=
  match p? with
  | some p => ! p n
  | none => false

/-- Models `_list_single_level`. -/
def listSingleLevel (p? : Option (String → Bool)) (parent : String) :
    List FSEntry → List DirEntry → List DirEntry × Bool
  | [], acc => (acc, false)
  | e :: rest, acc =>
    if MAX_DIRECTORY_ENTRIES ≤ acc.length then (acc, true)
    else
      if patSkip p? e.name then listSingleLevel p? parent rest acc
      else listSingleLevel p? parent rest (acc ++ (getEntryInfo parent e).toList)

/-- Models the loop body of `_list_recursive`.  `acc`/`tr` are the
`entries`/`truncated` locals of one invocation; a recursive call of the
source (`_list_recursive(entry, pattern, max_depth, current_depth + 1)`)
becomes the guarded inner call with a fresh accumulator, because the
source function returns `([], False)` immediately when the depth bound
is exceeded. -/
def listRecGo (p? : Option (String → Bool)) (maxDepth : Nat) :
    String → Nat → List FSEntry → List DirEntry → Bool →
      List DirEntry × Bool
  | _, _, [], acc, tr => (acc, tr)
  | parent, depth, e :: rest, acc, tr =>
    if MAX_DIRECTORY_ENTRIES ≤ acc.length then (acc, true)
    else
      if patSkip p? e.name then
        if e.isDir then
          let sub :=
            if maxDepth < depth + 1 then ([], false)
            else listRecGo p? maxDepth (parent ++ "/" ++ e.name) (depth + 1)
              e.childrenOf [] false
          listRecGo p? maxDepth parent depth rest (acc ++ sub.1) (tr || sub.2)
        else listRecGo p? maxDepth parent depth rest acc tr
      else
        let acc1 := acc ++ (getEntryInfo parent e).toList
        if e.isDir then
          let sub :=
            if maxDepth < depth + 1 then ([], false)
            else listRecGo p? maxDepth (parent ++ "/" ++ e.name) (depth + 1)
              e.childrenOf [] false
          listRecGo p? maxDepth parent depth rest (acc1 ++ sub.1) (tr || sub.2)
        else listRecGo p? maxDepth parent depth rest acc1 tr
termination_by _ _ children _ _ => weightList children
decreasing_by
  all_goals simp only [weightList]
  all_goals
    have _h1 := weightList_childrenOf_lt e
    have _h2 := weight_pos e
    omega

/-- Models line 912: `min(max_depth or MAX_RECURSION_DEPTH,
MAX_RECURSION_DEPTH)`.  Python `or` takes the right operand when
`max_depth` is falsy, i.e. `None` or `0`. -/
def effectiveMaxDepth (md : Option Nat) : Nat :=
  min (match md with
       | none => MAX_RECURSION_DEPTH
       | some 0 => MAX_RECURSION_DEPTH
       | some n => n)
    MAX_RECURSION_DEPTH

structure ListArgs where
  path : String
  recursive : Bool := false
  pattern : Option (String → Bool) := none
  maxDepth : Option Nat := none

structure ListResp where
  ok : Bool
  entries : List DirEntry := []
  count : Nat := 0
  truncated : Bool := false
  path : String := ""
  error : String := ""

/-- Models `list_directory`.  The `pattern` argument is the fnmatch
matcher `fnmatch.fnmatch(·, pattern)` as a predicate on entry names
(`none` when the Python argument is falsy).  Note: the source validates
the path only against the workspace sandbox; it never calls
`_check_in_allowed_roots`. -/
def list_directory (cfg : SandboxCfg) (dfs : String → PathNode)
    (a : ListArgs) : Except String ListResp :=
  if a.path = "" then .ok { ok := false, error := "path is required" }
  else
    match validate_path_in_sandbox cfg a.path with
    | .error e => .error e
    | .ok (.invalid msg) => .ok { ok := false, error := msg, path := a.path }
    | .ok (.valid resolved) =>
      match dfs resolved with
      | .missing =>
        .ok { ok := false, error := "Directory not found: " ++ resolved,
              path := resolved }
      | .nonDir =>
        .ok { ok := false, error := "Path is not a directory: " ++ resolved,
              path := resolved }
      | .dirNode children =>
        let result :=
          if a.recursive then
            -- entry guard of `_list_recursive` at current_depth = 0
            if effectiveMaxDepth a.maxDepth < 0 then ([], false)
            else listRecGo a.pattern (effectiveMaxDepth a.maxDepth) resolved 0
              children [] false
          else listSingleLevel a.pattern resolved children []
        .ok { ok := true, entries := result.1, count := result.1.length,
              truncated := result.2, path := resolved }

/-! ### Reference listing semantics

`specListing` restates the recursive walk in the words of the
(corrected) specification: an entry is returned exactly when its name
matches the pattern; recursion descends into every directory, matching
or not, as long as the child depth stays within the bound; there is no
entry cap.  The theorem `listRecGo_eq_spec` shows that the walk of the
source computes exactly this list whenever the total stays below the
entry cap. -/

def specListing (p : String → Bool) (maxDepth : Nat) :
    String → Nat → List FSEntry → List DirEntry
  | _, _, [] => []
  | parent, depth, e :: rest =>
    (if p e.name then (getEntryInfo parent e).toList else []) ++
    (if e.isDir ∧ depth + 1 ≤ maxDepth then
        specListing p maxDepth (parent ++ "/" ++ e.name) (depth + 1)
          e.childrenOf
      else []) ++
    specListing p maxDepth parent depth rest
termination_by _ _ children => weightList children
decreasing_by
  all_goals simp only [weightList]
  all_goals
    have _h1 := weightList_childrenOf_lt e
    have _h2 := weight_pos e
    omega

theorem listRecGo_eq_spec_aux (p : String → Bool) (maxDepth : Nat) :
    ∀ (w : Nat) (children : List FSEntry), weightList children ≤ w →
      ∀ (parent : String) (depth : Nat) (acc : List DirEntry) (tr : Bool),
        acc.length +
            (specListing p maxDepth parent depth children).length <
          MAX_DIRECTORY_ENTRIES →
        listRecGo (some p) maxDepth parent depth children acc tr =
          (acc ++ specListing p maxDepth parent depth children, tr) := by
  intro w
  induction w with
  | zero =>
    intro children hw parent depth acc tr hlen
    match children with
    | [] => simp [listRecGo, specListing]
    | e :: rest =>
      exfalso
      have := weight_pos e
      simp only [weightList] at hw
      omega
  | succ w ih =>
    intro children hw parent depth acc tr hlen
    match children with
    | [] => simp [listRecGo, specListing]
    | e :: rest =>
      have hwe : 0 < e.weight := weight_pos e
      have hwc : weightList e.childrenOf < e.weight :=
        weightList_childrenOf_lt e
      simp only [weightList] at hw
      rw [specListing.eq_2] at hlen ⊢
      rw [listRecGo.eq_2]
      have hcap : ¬ (MAX_DIRECTORY_ENTRIES ≤ acc.length) := by
        simp only [List.length_append] at hlen
        omega
      rw [if_neg hcap]
      by_cases hm : p e.name
      · rw [show patSkip (some p) e.name = false by
          simp [patSkip, hm]]
        simp only [Bool.false_eq_true, if_false]
        rw [if_pos hm] at hlen ⊢
        by_cases hd : e.isDir
        · rw [if_pos hd]
          by_cases hdep : maxDepth < depth + 1
          · rw [if_pos hdep]
            have hsd : ¬ (e.isDir = true ∧ depth + 1 ≤ maxDepth) :=
              fun hx => absurd hx.2 (by omega)
            rw [if_neg hsd] at hlen ⊢
            simp only [List.append_nil, List.length_append, Bool.or_false]
              at hlen ⊢
            rw [ih rest (by omega) parent depth
              (acc ++ (getEntryInfo parent e).toList) tr
              (by simp only [List.length_append]; omega)]
            simp [List.append_assoc]
          · rw [if_neg hdep]
            have hsd : e.isDir = true ∧ depth + 1 ≤ maxDepth :=
              ⟨hd, by omega⟩
            rw [if_pos hsd] at hlen ⊢
            simp only [List.length_append] at hlen
            rw [ih e.childrenOf (by omega)
              (parent ++ "/" ++ e.name) (depth + 1) [] false
              (by simp only [List.length_nil]; omega)]
            simp only [List.nil_append, Bool.or_false]
            rw [ih rest (by omega) parent depth
              (acc ++ (getEntryInfo parent e).toList ++
                specListing p maxDepth (parent ++ "/" ++ e.name) (depth + 1)
                  e.childrenOf) tr
              (by simp only [List.length_append]; omega)]
            simp [List.append_assoc]
        · rw [if_neg hd]
          have hsd : ¬ (e.isDir = true ∧ depth + 1 ≤ maxDepth) :=
            fun hx => hd hx.1
          rw [if_neg hsd] at hlen ⊢
          simp only [List.append_nil, List.length_append] at hlen ⊢
          rw [ih rest (by omega) parent depth
            (acc ++ (getEntryInfo parent e).toList) tr
            (by simp only [List.length_append]; omega)]
          simp [List.append_assoc]
      · rw [show patSkip (some p) e.name = true by
          simp [patSkip, hm]]
        simp only [if_true]
        rw [if_neg hm] at hlen ⊢
        by_cases hd : e.isDir
        · rw [if_pos hd]
          by_cases hdep : maxDepth < depth + 1
          · rw [if_pos hdep]
            have hsd : ¬ (e.isDir = true ∧ depth + 1 ≤ maxDepth) :=
              fun hx => absurd hx.2 (by omega)
            rw [if_neg hsd] at hlen ⊢
            simp only [List.append_nil, List.nil_append,
              List.length_append, Bool.or_false] at hlen ⊢
            rw [ih rest (by omega) parent depth acc tr (by omega)]
          · rw [if_neg hdep]
            have hsd : e.isDir = true ∧ depth + 1 ≤ maxDepth :=
              ⟨hd, by omega⟩
            rw [if_pos hsd] at hlen ⊢
            simp only [List.nil_append, List.length_append] at hlen
            rw [ih e.childrenOf (by omega)
              (parent ++ "/" ++ e.name) (depth + 1) [] false
              (by simp only [List.length_nil]; omega)]
            simp only [List.nil_append, Bool.or_false]
            rw [ih rest (by omega) parent depth
              (acc ++ specListing p maxDepth (parent ++ "/" ++ e.name)
                (depth + 1) e.childrenOf) tr
              (by simp only [List.length_append]; omega)]
            simp [List.append_assoc]
        · rw [if_neg hd]
          have hsd : ¬ (e.isDir = true ∧ depth + 1 ≤ maxDepth) :=
            fun hx => hd hx.1
          rw [if_neg hsd] at hlen ⊢
          simp only [List.append_nil, List.nil_append,
            List.length_append] at hlen ⊢
          rw [ih rest (by omega) parent depth acc tr (by omega)]

/-- The recursive walk of the source equals the specification listing
(and is not truncated) whenever the total result stays below the entry
cap. -/
theorem listRecGo_eq_spec (p : String → Bool) (maxDepth : Nat)
    (children : List FSEntry) (parent : String)
    (hlen : (specListing p maxDepth parent 0 children).length <
      MAX_DIRECTORY_ENTRIES) :
    listRecGo (some p) maxDepth parent 0 children [] false =
      (specListing p maxDepth parent 0 children, false) := by
  have := listRecGo_eq_spec_aux p maxDepth (weightList children) children
    (le_refl _) parent 0 [] false
    (by simpa using hlen)
  simpa using this

theorem getEntryInfo_name (parent : String) (e : FSEntry) (d : DirEntry)
    (h : getEntryInfo parent e = some d) : d.name = e.name := by
  unfold getEntryInfo at h
  split at h
  · exact absurd h (by simp)
  · cases h
    rfl

theorem isDir_not_isFile (e : FSEntry) (h : e.isDir = true) :
    e.isFile = false := by
  cases e <;> simp_all [FSEntry.isDir, FSEntry.isFile]

/-- Any entry produced by `_get_entry_info` has type `"file"` or
`"directory"`, and size 0 when it is a directory. -/
theorem getEntryInfo_wf (parent : String) (e : FSEntry) (d : DirEntry)
    (h : getEntryInfo parent e = some d) :
    (d.etype = "file" ∨ d.etype = "directory") ∧
      (d.etype = "directory" → d.size = 0) := by
  unfold getEntryInfo at h
  split at h
  · exact absurd h (by simp)
  · cases h
    by_cases hd : e.isDir
    · refine ⟨Or.inr (by simp [hd]), fun _ => ?_⟩
      simp [isDir_not_isFile e hd]
    · constructor
      · left
        simp [hd]
      · intro hcontra
        simp [hd] at hcontra

theorem specListing_matches_aux (p : String → Bool) (maxDepth : Nat) :
    ∀ (w : Nat) (children : List FSEntry), weightList children ≤ w →
      ∀ (parent : String) (depth : Nat) (d : DirEntry),
        d ∈ specListing p maxDepth parent depth children →
        p d.name = true := by
  intro w
  induction w with
  | zero =>
    intro children hw parent depth d hd
    match children with
    | [] => rw [specListing.eq_1] at hd; exact absurd hd (by simp)
    | e :: rest =>
      exfalso
      have := weight_pos e
      simp only [weightList] at hw
      omega
  | succ w ih =>
    intro children hw parent depth d hd
    match children with
    | [] => rw [specListing.eq_1] at hd; exact absurd hd (by simp)
    | e :: rest =>
      have hwe := weight_pos e
      have hwc := weightList_childrenOf_lt e
      simp only [weightList] at hw
      rw [specListing.eq_2] at hd
      simp only [List.mem_append] at hd
      rcases hd with (hd | hd) | hd
      · by_cases hm : p e.name
        · rw [if_pos hm] at hd
          rw [Option.mem_toList, Option.mem_def] at hd
          rw [getEntryInfo_name parent e d hd]
          exact hm
        · rw [if_neg hm] at hd
          exact absurd hd (by simp)
      · by_cases hs : e.isDir = true ∧ depth + 1 ≤ maxDepth
        · rw [if_pos hs] at hd
          exact ih e.childrenOf (by omega) _ _ d hd
        · rw [if_neg hs] at hd
          exact absurd hd (by simp)
      · exact ih rest (by omega) parent depth d hd

/-- Every entry of the specification listing matches the pattern. -/
theorem specListing_matches (p : String → Bool) (maxDepth : Nat)
    (children : List FSEntry) (parent : String) (depth : Nat)
    (d : DirEntry) (hd : d ∈ specListing p maxDepth parent depth children) :
    p d.name = true :=
  specListing_matches_aux p maxDepth (weightList children) children
    (le_refl _) parent depth d hd

theorem listRecGo_mem_aux (p? : Option (String → Bool)) (maxDepth : Nat) :
    ∀ (w : Nat) (children : List FSEntry), weightList children ≤ w →
      ∀ (parent : String) (depth : Nat) (acc : List DirEntry) (tr : Bool)
        (d : DirEntry),
        d ∈ (listRecGo p? maxDepth parent depth children acc tr).1 →
        d ∈ acc ∨ ∃ par e, getEntryInfo par e = some d := by
  intro w
  induction w with
  | zero =>
    intro children hw parent depth acc tr d hd
    match children with
    | [] => rw [listRecGo.eq_1] at hd; exact Or.inl hd
    | e :: rest =>
      exfalso
      have := weight_pos e
      simp only [weightList] at hw
      omega
  | succ w ih =>
    intro children hw parent depth acc tr d hd
    match children with
    | [] => rw [listRecGo.eq_1] at hd; exact Or.inl hd
    | e :: rest =>
      have hwe := weight_pos e
      have hwc := weightList_childrenOf_lt e
      simp only [weightList] at hw
      rw [listRecGo.eq_2] at hd
      by_cases hcap : MAX_DIRECTORY_ENTRIES ≤ acc.length
      · rw [if_pos hcap] at hd
        exact Or.inl hd
      rw [if_neg hcap] at hd
      have hsub : ∀ (par2 : String),
          d ∈ (if maxDepth < depth + 1 then ([], false)
            else listRecGo p? maxDepth par2 (depth + 1)
              e.childrenOf [] false).1 →
          ∃ par e2, getEntryInfo par e2 = some d := by
        intro par2 hmem
        by_cases hdep : maxDepth < depth + 1
        · rw [if_pos hdep] at hmem
          exact absurd hmem (by simp)
        · rw [if_neg hdep] at hmem
          rcases ih e.childrenOf (by omega) par2 (depth + 1) [] false d hmem
            with hc | hc
          · exact absurd hc (by simp)
          · exact hc
      by_cases hs : patSkip p? e.name
      · rw [if_pos hs] at hd
        by_cases hdir : e.isDir
        · rw [if_pos hdir] at hd
          rcases ih rest (by omega) parent depth _ _ d hd with hc | hc
          · rw [List.mem_append] at hc
            rcases hc with hc | hc
            · exact Or.inl hc
            · exact Or.inr (hsub _ hc)
          · exact Or.inr hc
        · rw [if_neg hdir] at hd
          exact ih rest (by omega) parent depth acc tr d hd
      · rw [if_neg hs] at hd
        by_cases hdir : e.isDir
        · rw [if_pos hdir] at hd
          rcases ih rest (by omega) parent depth _ _ d hd with hc | hc
          · rw [List.mem_append, List.mem_append] at hc
            rcases hc with (hc | hc) | hc
            · exact Or.inl hc
            · rw [Option.mem_toList, Option.mem_def] at hc
              exact Or.inr ⟨parent, e, hc⟩
            · exact Or.inr (hsub _ hc)
          · exact Or.inr hc
        · rw [if_neg hdir] at hd
          rcases ih rest (by omega) parent depth _ _ d hd with hc | hc
          · rw [List.mem_append] at hc
            rcases hc with hc | hc
            · exact Or.inl hc
            · rw [Option.mem_toList, Option.mem_def] at hc
              exact Or.inr ⟨parent, e, hc⟩
          · exact Or.inr hc

theorem listSingleLevel_mem (p? : Option (String → Bool)) (parent : String) :
    ∀ (children : List FSEntry) (acc : List DirEntry) (d : DirEntry),
      d ∈ (listSingleLevel p? parent children acc).1 →
      d ∈ acc ∨ ∃ par e, getEntryInfo par e = some d := by
  intro children
  induction children with
  | nil =>
    intro acc d hd
    rw [listSingleLevel.eq_1] at hd
    exact Or.inl hd
  | cons e rest ih =>
    intro acc d hd
    rw [listSingleLevel.eq_2] at hd
    by_cases hcap : MAX_DIRECTORY_ENTRIES ≤ acc.length
    · rw [if_pos hcap] at hd
      exact Or.inl hd
    rw [if_neg hcap] at hd
    by_cases hs : patSkip p? e.name
    · rw [if_pos hs] at hd
      exact ih acc d hd
    · rw [if_neg hs] at hd
      rcases ih _ d hd with hc | hc
      · rw [List.mem_append] at hc
        rcases hc with hc | hc
        · exact Or.inl hc
        · rw [Option.mem_toList, Option.mem_def] at hc
          exact Or.inr ⟨parent, e, hc⟩
      · exact Or.inr hc

/-- Every entry of any `list_directory` response comes from
`_get_entry_info`. -/
theorem list_directory_mem (cfg : SandboxCfg) (dfs : String → PathNode)
    (a : ListArgs) (r : ListResp) (h : list_directory cfg dfs a = .ok r)
    (d : DirEntry) (hd : d ∈ r.entries) :
    ∃ par e, getEntryInfo par e = some d := by
  unfold list_directory at h
  split at h
  · cases h
    exact absurd hd (by simp)
  · split at h
    · exact absurd h (by simp)
    · cases h
      exact absurd hd (by simp)
    · rename_i resolved heq
      split at h
      · cases h
        exact absurd hd (by simp)
      · cases h
        exact absurd hd (by simp)
      · rename_i children heq2
        cases h
        simp only at hd
        by_cases hrec : a.recursive = true
        · rw [if_pos hrec] at hd
          by_cases hneg : effectiveMaxDepth a.maxDepth < 0
          · rw [if_pos hneg] at hd
            exact absurd hd (by simp)
          · rw [if_neg hneg] at hd
            rcases listRecGo_mem_aux a.pattern (effectiveMaxDepth a.maxDepth)
              (weightList children) children (le_refl _) resolved 0 [] false
              d hd with hc | hc
            · exact absurd hc (by simp)
            · exact hc
        · rw [if_neg hrec] at hd
          rcases listSingleLevel_mem a.pattern resolved children [] d hd
            with hc | hc
          · exact absurd hc (by simp)
          · exact hc

/-! ### Helper facts -/

theorem strMk_data (s : String) : String.mk s.data = s := rfl

theorem strLength_append (s t : String) :
    (s ++ t).length = s.length + t.length := by
  show (s.data ++ t.data).length = s.data.length + t.data.length
  exact List.length_append _ _

theorem str_append_ne_empty (s t : String) (hs : s ≠ "") : s ++ t ≠ "" := by
  intro h
  apply hs
  have hl := congrArg String.length h
  rw [strLength_append] at hl
  have : s.length = 0 := by
    have : ("" : String).length = 0 := rfl
    omega
  cases s with
  | mk data =>
    cases data with
    | nil => rfl
    | cons c cs => simp [String.length] at this

/-! ### Patch-path validation facts (claim C1) -/

/-- A single absolute or `..`-containing path anywhere in the list makes
`_validate_patch_file_paths` reject the whole list with a nonempty error
message and an empty validated list, provided the joined paths are free
of NUL bytes (so that `Path.resolve` cannot raise first). -/
theorem validate_patch_rejects (cfg : SandboxCfg) (tdir : String) :
    ∀ files : List String,
      (∀ f ∈ files, hasNulStr (tdir ++ "/" ++ f) = false) →
      (∃ f ∈ files, strStarts f "/" = true ∨ strHas f ".." = true) →
      ∃ msg, validate_patch_file_paths cfg tdir files = .ok (false, msg, []) ∧
        msg ≠ "" := by
  intro files
  induction files with
  | nil =>
    rintro _ ⟨f, hf, _⟩
    exact absurd hf (by simp)
  | cons f rest ih =>
    intro hnul hviol
    rw [validate_patch_file_paths.eq_2]
    by_cases h1 : strStarts f "/" = true
    · rw [if_pos h1]
      exact ⟨_, rfl, str_append_ne_empty _ _ (by decide)⟩
    · rw [if_neg h1]
      by_cases h2 : strHas f ".." = true
      · rw [if_pos h2]
        exact ⟨_, rfl, str_append_ne_empty _ _ (by decide)⟩
      · rw [if_neg h2]
        rw [hnul f (by simp)]
        simp only [Bool.false_eq_true, if_false]
        by_cases h3 : isWithin (cfg.resolve (tdir ++ "/" ++ f)) tdir = false
        · rw [if_pos h3]
          exact ⟨_, rfl, str_append_ne_empty _ _ (by decide)⟩
        · rw [if_neg h3]
          match hroots : check_in_allowed_roots cfg
            (cfg.resolve (tdir ++ "/" ++ f)) with
          | (false, msg) =>
            exact ⟨_, rfl, str_append_ne_empty _ _ (str_append_ne_empty _ _
              (str_append_ne_empty "Patch file path " f (by decide)))⟩
          | (true, s) =>
            have hrest : ∃ g ∈ rest,
                strStarts g "/" = true ∨ strHas g ".." = true := by
              rcases hviol with ⟨g, hg, hgv⟩
              rcases List.mem_cons.mp hg with hgf | hgr
              · subst hgf
                rcases hgv with hv | hv
                · exact absurd hv h1
                · exact absurd hv h2
              · exact ⟨g, hgr, hgv⟩
            rcases ih (fun g hg => hnul g (by simp [hg])) hrest
              with ⟨msg, hmsg, hne⟩
            rw [hmsg]
            exact ⟨msg, rfl, hne⟩

/-- With a violating path anywhere in the list,
`_validate_patch_file_paths` never reports the list as valid: it either
rejects or raises. -/
theorem validate_patch_never_valid (cfg : SandboxCfg) (tdir : String) :
    ∀ files : List String,
      (∃ f ∈ files, strStarts f "/" = true ∨ strHas f ".." = true) →
      ∀ (s : String) (vs : List String),
        validate_patch_file_paths cfg tdir files ≠ .ok (true, s, vs) := by
  intro files
  induction files with
  | nil =>
    rintro ⟨f, hf, _⟩
    exact absurd hf (by simp)
  | cons f rest ih =>
    intro hviol s vs
    rw [validate_patch_file_paths.eq_2]
    by_cases h1 : strStarts f "/" = true
    · rw [if_pos h1]
      simp
    · rw [if_neg h1]
      by_cases h2 : strHas f ".." = true
      · rw [if_pos h2]
        simp
      · rw [if_neg h2]
        by_cases h0 : hasNulStr (tdir ++ "/" ++ f) = true
        · rw [if_pos h0]
          simp
        · rw [if_neg h0]
          by_cases h3 : isWithin (cfg.resolve (tdir ++ "/" ++ f)) tdir = false
          · rw [if_pos h3]
            simp
          · rw [if_neg h3]
            have hrest : ∃ g ∈ rest,
                strStarts g "/" = true ∨ strHas g ".." = true := by
              rcases hviol with ⟨g, hg, hgv⟩
              rcases List.mem_cons.mp hg with hgf | hgr
              · subst hgf
                rcases hgv with hv | hv
                · exact absurd hv h1
                · exact absurd hv h2
              · exact ⟨g, hgr, hgv⟩
            match hroots : check_in_allowed_roots cfg
              (cfg.resolve (tdir ++ "/" ++ f)) with
            | (false, msg) => simp
            | (true, s2) =>
              match hrec : validate_patch_file_paths cfg tdir rest with
              | .error e => simp
              | .ok (true, s3, vs3) => exact absurd hrec (ih hrest s3 vs3)
              | .ok (false, msg3, vs3) => simp

/-! ### Inversion of a successful `write_local_file` (claims C4, C5) -/

theorem write_ok_inversion (cfg : SandboxCfg) (fs : Fs) (ts : String)
    (a : WriteArgs) (r : WriteResp) (fs2 : Fs)
    (h : write_local_file cfg utf8Codec fs ts a = .ok (r, fs2))
    (hok : r.ok = true) :
    ∃ resolved,
      validate_path_in_sandbox cfg a.path = .ok (.valid resolved) ∧
      (check_in_allowed_roots cfg resolved).1 = true ∧
      a.path ≠ "" ∧
      (utf8Encode a.content).length ≤ MAX_WRITE_FILE_SIZE ∧
      r.size = (utf8Encode a.content).length ∧
      r.path = resolved ∧
      fs2 resolved = .fileNode (utf8Encode a.content) ∧
      (fs (parentOf resolved) = .directory → a.createBackup = true →
        ∀ B, fs resolved = .fileNode B →
          ∃ s, fs2 (s ++ ".bak") = .fileNode B) := by
  unfold write_local_file at h
  by_cases hpath : a.path = ""
  · rw [if_pos hpath] at h
    cases h
    exact absurd hok (by simp)
  rw [if_neg hpath] at h
  simp only [utf8Codec] at h
  by_cases hsize : MAX_WRITE_FILE_SIZE < (utf8Encode a.content).length
  · rw [if_pos hsize] at h
    cases h
    exact absurd hok (by simp)
  rw [if_neg hsize] at h
  rcases hval : validate_path_in_sandbox cfg a.path with e | sv
  · rw [hval] at h
    exact absurd h (by simp)
  rw [hval] at h
  cases sv with
  | invalid msg =>
    simp only [] at h
    cases h
    exact absurd hok (by simp)
  | valid resolved =>
    simp only [] at h
    rcases hroots : check_in_allowed_roots cfg resolved with ⟨b, msg⟩
    rw [hroots] at h
    cases b with
    | false =>
      simp only [] at h
      cases h
      exact absurd hok (by simp)
    | true =>
      simp only [] at h
      by_cases hc1 : fs (parentOf resolved) = FNode.missing ∧
          ¬ a.createDirs = true
      · rw [if_pos hc1] at h
        cases h
        exact absurd hok (by simp)
      rw [if_neg hc1] at h
      by_cases hc2 : fs (parentOf resolved) = FNode.missing ∧
          (ancestorPaths (parentOf resolved)).any
            (fun q => match fs q with
              | .fileNode _ => true
              | _ => false) = true
      · rw [if_pos hc2] at h
        cases h
        exact absurd hok (by simp)
      rw [if_neg hc2] at h
      by_cases hc3 : (if a.createBackup = true ∧
            (if fs (parentOf resolved) = FNode.missing then
              mkdirParents fs (parentOf resolved) else fs) resolved ≠
              FNode.missing then
          create_backup (if fs (parentOf resolved) = FNode.missing then
            mkdirParents fs (parentOf resolved) else fs) ts resolved
        else ((if fs (parentOf resolved) = FNode.missing then
          mkdirParents fs (parentOf resolved) else fs), none)).1
          (parentOf resolved) ≠ FNode.directory
      · rw [if_pos hc3] at h
        cases h
        exact absurd hok (by simp)
      rw [if_neg hc3] at h
      by_cases hc4 : (if a.createBackup = true ∧
            (if fs (parentOf resolved) = FNode.missing then
              mkdirParents fs (parentOf resolved) else fs) resolved ≠
              FNode.missing then
          create_backup (if fs (parentOf resolved) = FNode.missing then
            mkdirParents fs (parentOf resolved) else fs) ts resolved
        else ((if fs (parentOf resolved) = FNode.missing then
          mkdirParents fs (parentOf resolved) else fs), none)).1
          resolved = FNode.directory
      · rw [if_pos hc4] at h
        cases h
        exact absurd hok (by simp)
      rw [if_neg hc4] at h
      cases h
      refine ⟨resolved, rfl, by rw [hroots], hpath, by omega, rfl, rfl,
        by simp [fsUpdate], ?_⟩
      intro hpdir hback B hfile
      have hfs1 : (if fs (parentOf resolved) = FNode.missing
          then mkdirParents fs (parentOf resolved) else fs) = fs := by
        rw [if_neg (by rw [hpdir]; simp)]
      rw [hfs1]
      have hbackcond : a.createBackup = true ∧
          fs resolved ≠ FNode.missing := ⟨hback, by rw [hfile]; simp⟩
      rw [if_pos hbackcond]
      unfold create_backup
      rw [hfile]
      simp only []
      by_cases hbak : fs (resolved ++ ".bak") ≠ FNode.missing
      · rw [if_pos hbak]
        refine ⟨resolved ++ "." ++ ts, ?_⟩
        have hne : resolved ++ "." ++ ts ++ ".bak" ≠ resolved := by
          intro hcontra
          have := congrArg String.length hcontra
          simp only [strLength_append] at this
          have h4 : (".bak" : String).length = 4 := rfl
          have h1 : ("." : String).length = 1 := rfl
          omega
        simp [fsUpdate, hne]
      · rw [if_neg hbak]
        refine ⟨resolved, ?_⟩
        have hne : resolved ++ ".bak" ≠ resolved := by
          intro hcontra
          have := congrArg String.length hcontra
          simp only [strLength_append] at this
          have h4 : (".bak" : String).length = 4 := rfl
          omega
        simp [fsUpdate, hne]

/-- Evaluation of `read_local_file` with default arguments on a path
holding UTF-8 encoded text that the binary heuristic does not flag and
that needs no line truncation. -/
theorem read_text_file (cfg : SandboxCfg) (fs2 : Fs) (p resolved C : String)
    (hpne : ¬ p = "")
    (hval : validate_path_in_sandbox cfg p = .ok (.valid resolved))
    (hroots : (check_in_allowed_roots cfg resolved).1 = true)
    (hfile : fs2 resolved = .fileNode (utf8Encode C))
    (hsize : (utf8Encode C).length ≤ MAX_READ_FILE_SIZE)
    (hbin : is_binary_file 8192 (some (utf8Encode C)) = false)
    (hlines : (pySplit '\n' C).length ≤ 1000) :
    read_local_file cfg utf8Codec fs2 { path := p } =
      .ok { ok := true, content := C, path := resolved,
            size := (utf8Encode C).length } := by
  unfold read_local_file
  simp only []
  rw [if_neg hpne, hval]
  simp only []
  rcases hcr : check_in_allowed_roots cfg resolved with ⟨b, m⟩
  rw [hcr] at hroots
  simp only [] at hroots
  subst hroots
  simp only []
  rw [hfile]
  simp only []
  rw [if_neg (by omega : ¬ MAX_READ_FILE_SIZE < (utf8Encode C).length)]
  rw [hbin]
  simp only [Bool.false_eq_true, if_false]
  simp only [utf8Codec]
  rw [utf8Decode_utf8Encode C]
  simp only [strMk_data]
  rw [if_pos (by decide : (0 : Nat) < 1000)]
  rw [if_neg (by omega : ¬ 1000 < (pySplit '\n' C).length)]

/-- With NUL-free joined paths, `_validate_patch_file_paths` cannot
raise. -/
theorem validate_patch_no_raise (cfg : SandboxCfg) (tdir : String) :
    ∀ files : List String,
      (∀ f ∈ files, hasNulStr (tdir ++ "/" ++ f) = false) →
      ∀ e, validate_patch_file_paths cfg tdir files ≠ .error e := by
  intro files
  induction files with
  | nil =>
    intro _ e
    simp [validate_patch_file_paths]
  | cons f rest ih =>
    intro hnul e
    rw [validate_patch_file_paths.eq_2]
    by_cases h1 : strStarts f "/" = true
    · rw [if_pos h1]; simp
    rw [if_neg h1]
    by_cases h2 : strHas f ".." = true
    · rw [if_pos h2]; simp
    rw [if_neg h2]
    rw [hnul f (by simp)]
    simp only [Bool.false_eq_true, if_false]
    by_cases h3 : isWithin (cfg.resolve (tdir ++ "/" ++ f)) tdir = false
    · rw [if_pos h3]; simp
    rw [if_neg h3]
    match hroots : check_in_allowed_roots cfg
      (cfg.resolve (tdir ++ "/" ++ f)) with
    | (false, msg) => simp
    | (true, s) =>
      match hrec : validate_patch_file_paths cfg tdir rest with
      | .error e2 => exact absurd hrec (ih (fun g hg => hnul g (by simp [hg])) e2)
      | .ok (true, s3, vs3) => simp
      | .ok (false, msg3, vs3) => simp

/-- Shared concrete sandbox: workspace `/ws`, allowed roots `[/ws]`, a
directory tree with no symlinks or dot segments, so canonicalisation is
the identity. -/
def idResolve : String → String := fun p => p

def cfgWs : SandboxCfg :=
  { workspaceRoot := "/ws", allowedRoots := ["/ws"], resolve := idResolve }

def fsWs : Fs := fun p => if p = "/ws" then .directory else .missing

def backendOkW : BackendResult := { ok := true }

/-- Claim C1 (amended).  Part 1: for any patch whose extracted header
paths include an absolute path or a path containing `..`, no backend is
spawned and no backup is created, whatever else happens.  Part 2: if in
addition the target directory resolves and the extracted paths are free
of NUL bytes (so that `Path.resolve` cannot raise first), the call
returns a structured `ok: false` response with a nonempty error. -/
theorem C1_theorem (cfg : SandboxCfg) (fs : Fs) (isGitRepo : Bool)
    (backend : BackendResult) (a : PatchArgs)
    (hviol : ∃ f ∈ extract_files_from_patch a.patch_content,
      strStarts f "/" = true ∨ strHas f ".." = true) :
    ((apply_patch_locally cfg fs isGitRepo backend a).2.all
        (fun ev => !ev.isBackendSpawn && !ev.isBackupCreated)) = true ∧
    (∀ tdir, validate_path_in_sandbox cfg a.target_dir = .ok (.valid tdir) →
      (∀ f ∈ extract_files_from_patch a.patch_content,
        hasNulStr (tdir ++ "/" ++ f) = false) →
      ∃ r, (apply_patch_locally cfg fs isGitRepo backend a).1 = .ok r ∧
        r.ok = false ∧ r.error ≠ "") := by
  unfold apply_patch_locally
  by_cases hpc : a.patch_content = ""
  · exfalso
    rcases hviol with ⟨f, hf, _⟩
    rw [hpc] at hf
    exact absurd hf (by simp [extract_files_from_patch, pySplit, splitChars,
      strStarts, isInitSeg])
  rw [if_neg hpc]
  by_cases htd : a.target_dir = ""
  · rw [if_pos htd]
    exact ⟨rfl, fun tdir _ _ => ⟨_, rfl, rfl, by decide⟩⟩
  rw [if_neg htd]
  rcases hsv : validate_path_in_sandbox cfg a.target_dir with e | sv
  · refine ⟨rfl, fun tdir hval _ => absurd hval (by simp)⟩
  cases sv with
  | invalid msg =>
    simp only []
    refine ⟨rfl, fun tdir hval _ => absurd hval (by simp)⟩
  | valid tdir0 =>
    simp only []
    rcases hcr : check_in_allowed_roots cfg tdir0 with ⟨b, m⟩
    cases b with
    | false =>
      simp only []
      refine ⟨rfl, fun tdir hval _ => ?_⟩
      refine ⟨_, rfl, rfl, ?_⟩
      unfold check_in_allowed_roots at hcr
      split at hcr
      · exact absurd hcr (by simp)
      · cases hcr
        exact str_append_ne_empty _ _ (str_append_ne_empty _ _
          (str_append_ne_empty "Path " tdir0 (by decide)))
    | true =>
      simp only []
      rcases hfs : fs tdir0 with _ | _ | bytes
      · simp only []
        exact ⟨rfl, fun tdir hval _ => ⟨_, rfl, rfl,
          str_append_ne_empty _ _ (by decide)⟩⟩
      · simp only []
        rcases hvp : validate_patch_file_paths cfg tdir0
          (extract_files_from_patch a.patch_content) with e | trip
        · simp only []
          refine ⟨by decide, fun tdir hval hnul => ?_⟩
          have htd0 : tdir0 = tdir := by
            injection hval with hval2
            injection hval2
          subst htd0
          exact absurd hvp (validate_patch_no_raise cfg tdir0 _ hnul e)
        · rcases trip with ⟨b2, msg2, vs⟩
          cases b2 with
          | false =>
            simp only []
            refine ⟨by decide, fun tdir hval hnul => ?_⟩
            have htd0 : tdir0 = tdir := by
              injection hval with hval2
              injection hval2
            subst htd0
            rcases validate_patch_rejects cfg tdir0 _ hnul hviol
              with ⟨msg3, hmsg3, hne3⟩
            rw [hvp] at hmsg3
            injection hmsg3 with hmsg4
            cases hmsg4
            exact ⟨_, rfl, rfl, hne3⟩
          | true =>
            exact absurd hvp
              (validate_patch_never_valid cfg tdir0 _ hviol msg2 vs)
      · simp only []
        exact ⟨rfl, fun tdir hval _ => ⟨_, rfl, rfl,
          str_append_ne_empty _ _ (by decide)⟩⟩

def patchArgsC1w : PatchArgs :=
  { patch_content := "--- a/../evil\n", target_dir := "/ws" }

theorem C1_witness :
    ((apply_patch_locally cfgWs fsWs false backendOkW patchArgsC1w).2.all
        (fun ev => !ev.isBackendSpawn && !ev.isBackupCreated)) = true ∧
    (∃ r, (apply_patch_locally cfgWs fsWs false backendOkW
        patchArgsC1w).1 = .ok r ∧ r.ok = false ∧ r.error ≠ "") :=
  ⟨(C1_theorem cfgWs fsWs false backendOkW patchArgsC1w (by decide)).1,
   (C1_theorem cfgWs fsWs false backendOkW patchArgsC1w (by decide)).2
     "/ws" rfl (by decide)⟩

def patchArgsC1c : PatchArgs :=
  { patch_content := "--- a/fo\u0000o\n+++ b/../evil\n", target_dir := "/ws" }

/-- Claim C1 counterexample: a patch body whose headers reference both a
NUL-containing path and a `..` path.  The claim as stated promises an
`ok: false` response; instead `(target_dir / "fo\u0000o").resolve()`
raises `ValueError` before the `..` check of the second path is reached,
so the call raises (and also leaks the temporary patch file). -/
theorem C1_counterexample :
    apply_patch_locally cfgWs fsWs false backendOkW patchArgsC1c =
      (Except.error "ValueError: embedded null byte",
       [Event.tempCreated]) := rfl

def cfgC2 : SandboxCfg :=
  { workspaceRoot := "/ws", allowedRoots := ["/ws/repo"], resolve := idResolve }

def dfsC2 : String → PathNode :=
  fun p => if p = "/ws/other" then .dirNode [.file "a.txt" 1] else .missing

/-- Claim C2 is violated by `list_directory`: with the allowed-root set
restricted to `/ws/repo`, listing `/ws/other` (inside the workspace but
outside every allowed root) succeeds, because `list_directory` never
calls `_check_in_allowed_roots`; the second conjunct shows the
allowed-roots check would have rejected the path. -/
theorem C2_theorem :
    (list_directory cfgC2 dfsC2 { path := "/ws/other" } =
      .ok { ok := true,
            entries := [{ path := "/ws/other/a.txt", name := "a.txt",
                          etype := "file", size := 1 }],
            count := 1, truncated := false, path := "/ws/other" }) ∧
    (check_in_allowed_roots cfgC2 "/ws/other").1 = false :=
  ⟨rfl, rfl⟩

/-- Claim C3 is violated twice.  First conjunct: `write_local_file` with
`encoding="ascii"` and non-ASCII content raises `UnicodeEncodeError`
uncaught, because the size check `content.encode(encoding)` (line 372)
runs outside the try block.  Second conjunct: `apply_patch_locally`
raises `ValueError` uncaught when an extracted patch path cannot be
resolved (embedded NUL byte, line 654). -/
theorem C3_theorem :
    (write_local_file cfgWs asciiCodec fsWs "20240101_000000"
        { path := "notes.txt", content := "café" } =
      .error "UnicodeEncodeError: ascii codec cannot encode character") ∧
    ((apply_patch_locally cfgWs fsWs false backendOkW
        { patch_content := "--- a/x\u0000y\n", target_dir := "/ws" }).1 =
      .error "ValueError: embedded null byte") :=
  ⟨rfl, rfl⟩

/-- Claim C6 is violated: when `_validate_patch_file_paths` raises (here
through a NUL byte in an extracted path), the temporary patch file has
already been created but neither the manual unlink of the
validation-failure branch nor the try/finally around the backend call is
reached, so the event trace ends without `tempDeleted`. -/
theorem C6_theorem :
    (apply_patch_locally cfgWs fsWs true backendOkW
        { patch_content := "--- a/ab\u0000c\n", target_dir := "/ws" } =
      (Except.error "ValueError: embedded null byte",
       [Event.tempCreated])) ∧
    Event.tempDeleted ∉ ([Event.tempCreated] : List Event) :=
  ⟨rfl, by decide⟩

/-- Claim C4 (amended): when a `write_local_file` of content `C`
succeeds and the binary-content heuristic does not flag the UTF-8
encoding of `C` and line truncation does not apply, reading the path
back returns exactly `C`, and both reported sizes equal the byte length
of the UTF-8 encoding of `C`. -/
theorem C4_theorem (cfg : SandboxCfg) (fs : Fs) (ts : String)
    (a : WriteArgs) (r : WriteResp) (fs2 : Fs)
    (hw : write_local_file cfg utf8Codec fs ts a = .ok (r, fs2))
    (hok : r.ok = true)
    (hbin : is_binary_file 8192 (some (utf8Encode a.content)) = false)
    (hlines : (pySplit '\n' a.content).length ≤ 1000) :
    ∃ resolved,
      r.size = (utf8Encode a.content).length ∧
      read_local_file cfg utf8Codec fs2 { path := a.path } =
        .ok { ok := true, content := a.content, path := resolved,
              size := (utf8Encode a.content).length } := by
  rcases write_ok_inversion cfg fs ts a r fs2 hw hok with
    ⟨resolved, hval, hroots, hpne, hsz, hrsize, hrpath, hfile, _⟩
  refine ⟨resolved, hrsize, ?_⟩
  have hlim : MAX_WRITE_FILE_SIZE ≤ MAX_READ_FILE_SIZE := by decide
  exact read_text_file cfg fs2 a.path resolved a.content hpne hval hroots
    hfile (by omega) hbin hlines

def fsC4done : Fs :=
  fsUpdate fsWs "/ws/f.txt" (FNode.fileNode (utf8Encode "hello"))

def wrC4 : WriteResp :=
  { ok := true, path := "/ws/f.txt", size := 5,
    message := "Successfully wrote 5 bytes to /ws/f.txt",
    backupPath := none }

theorem C4_witness :
    ∃ resolved,
      wrC4.size = (utf8Encode "hello").length ∧
      read_local_file cfgWs utf8Codec fsC4done { path := "/ws/f.txt" } =
        .ok { ok := true, content := "hello", path := resolved,
              size := (utf8Encode "hello").length } :=
  C4_theorem cfgWs fsWs "20240101_000000"
    { path := "/ws/f.txt", content := "hello" } wrC4
    fsC4done rfl rfl (by decide) (by decide)

def fsC4c : Fs :=
  fsUpdate fsWs "/ws/m.txt" (FNode.fileNode (utf8Encode "MZ"))

/-- Claim C4 counterexample: the text content `"MZ"` writes successfully
but cannot be read back: its UTF-8 encoding starts with the PE signature
bytes, so `read_local_file` rejects the file as binary even though no
truncation applies.  The round trip of the claim fails for this `C`. -/
theorem C4_counterexample :
    (write_local_file cfgWs utf8Codec fsWs "20240101_000000"
        { path := "/ws/m.txt", content := "MZ" } =
      .ok ({ ok := true, path := "/ws/m.txt", size := 2,
             message := "Successfully wrote 2 bytes to /ws/m.txt",
             backupPath := none }, fsC4c)) ∧
    (read_local_file cfgWs utf8Codec fsC4c { path := "/ws/m.txt" } =
      .ok { ok := false, path := "/ws/m.txt", size := 2,
            error := "Binary file detected - cannot read binary files" }) :=
  ⟨rfl, rfl⟩

/-- Claim C5: when `createBackup` is set, the file exists with content
`B` and its parent directory exists, a successful `write_local_file`
leaves a backup file named `… ++ ".bak"` whose content is exactly `B`. -/
theorem C5_theorem (cfg : SandboxCfg) (fs : Fs) (ts : String)
    (a : WriteArgs) (r : WriteResp) (fs2 : Fs) (resolved : String)
    (B : List Nat)
    (hw : write_local_file cfg utf8Codec fs ts a = .ok (r, fs2))
    (hok : r.ok = true)
    (hback : a.createBackup = true)
    (hval : validate_path_in_sandbox cfg a.path = .ok (.valid resolved))
    (hparent : fs (parentOf resolved) = .directory)
    (hfile : fs resolved = .fileNode B) :
    ∃ s, fs2 (s ++ ".bak") = .fileNode B := by
  rcases write_ok_inversion cfg fs ts a r fs2 hw hok with
    ⟨resolved2, hval2, _, _, _, _, _, _, hbak⟩
  rw [hval] at hval2
  have hres : resolved2 = resolved := by
    injection hval2 with h2
    injection h2 with h3
    exact h3.symm
  subst hres
  exact hbak hparent hback B hfile

def fsC5 : Fs := fun p =>
  if p = "/ws" then .directory
  else if p = "/ws/e.txt" then .fileNode (utf8Encode "old")
  else .missing

def fsC5done : Fs :=
  fsUpdate (fsUpdate fsC5 "/ws/e.txt.bak" (FNode.fileNode (utf8Encode "old")))
    "/ws/e.txt" (FNode.fileNode (utf8Encode "new"))

theorem C5_witness :
    ∃ s, fsC5done (s ++ ".bak") = FNode.fileNode (utf8Encode "old") :=
  C5_theorem cfgWs fsC5 "20240101_000000"
    { path := "/ws/e.txt", content := "new" }
    { ok := true, path := "/ws/e.txt", size := 3,
      message := "Successfully wrote 3 bytes to /ws/e.txt",
      backupPath := some "/ws/e.txt.bak" }
    fsC5done "/ws/e.txt" (utf8Encode "old") rfl rfl rfl rfl rfl rfl

/-- Claim C8: the binary classifier answers `true` on a read error;
on readable content it answers `true` exactly when the 8-byte header
starts with one of the fixed signatures, or the 8 KiB prefix contains a
NUL byte, or the 8 KiB prefix fails strict UTF-8 decoding; consequently
`read_local_file` rejects any file whose content starts with the PNG
signature bytes, whatever its path or extension. -/
theorem C8_theorem :
    (is_binary_file 8192 none = true) ∧
    (∀ bytes : List Nat,
      is_binary_file 8192 (some bytes) =
        (BINARY_MAGIC_BYTES.any
            (fun magic => isInitSeg magic (bytes.take 8)) ||
          (bytes.take 8192).contains 0 ||
          !(utf8Decode (bytes.take 8192)).isSome)) ∧
    (∀ (cfg : SandboxCfg) (fs : Fs) (p resolved : String) (rest : List Nat)
        (maxSize : Nat),
      ¬ p = "" →
      validate_path_in_sandbox cfg p = .ok (.valid resolved) →
      (check_in_allowed_roots cfg resolved).1 = true →
      fs resolved = .fileNode (0x89 :: 0x50 :: 0x4E :: 0x47 :: rest) →
      4 + rest.length ≤ maxSize →
      read_local_file cfg utf8Codec fs { path := p, maxSize := maxSize } =
        .ok { ok := false,
              error := "Binary file detected - cannot read binary files",
              path := resolved, size := 4 + rest.length }) := by
  have hmin : (min 8192 8 : Nat) = 8 := by decide
  refine ⟨rfl, ?_, ?_⟩
  · intro bytes
    unfold is_binary_file
    simp only [hmin]
    cases h1 : BINARY_MAGIC_BYTES.any
        (fun magic => isInitSeg magic (bytes.take 8)) with
    | true => simp
    | false =>
      cases h2 : (bytes.take 8192).contains 0 with
      | true => simp
      | false =>
        cases h3 : (utf8Decode (bytes.take 8192)).isSome with
        | true => simp
        | false => simp
  · intro cfg fs p resolved rest maxSize hpne hval hroots hfile hsize
    have hlen4 : (0x89 :: 0x50 :: 0x4E :: 0x47 :: rest).length =
        4 + rest.length := by
      simp only [List.length_cons]
      omega
    unfold read_local_file
    simp only []
    rw [if_neg hpne, hval]
    simp only []
    rcases hcr : check_in_allowed_roots cfg resolved with ⟨b, m⟩
    rw [hcr] at hroots
    simp only [] at hroots
    subst hroots
    simp only []
    rw [hfile]
    simp only []
    rw [hlen4]
    rw [if_neg (by omega : ¬ maxSize < 4 + rest.length)]
    have hbin : is_binary_file 8192
        (some (0x89 :: 0x50 :: 0x4E :: 0x47 :: rest)) = true := by
      unfold is_binary_file
      simp only [hmin]
      rw [if_pos (by simp [BINARY_MAGIC_BYTES, isInitSeg, List.take_succ_cons])]
    rw [hbin]
    simp only [if_true]

def fsC8 : Fs :=
  fsUpdate fsWs "/ws/img.dat" (FNode.fileNode [0x89, 0x50, 0x4E, 0x47, 1, 2])

theorem C8_witness :
    read_local_file cfgWs utf8Codec fsC8
        { path := "/ws/img.dat", maxSize := MAX_READ_FILE_SIZE } =
      .ok { ok := false,
            error := "Binary file detected - cannot read binary files",
            path := "/ws/img.dat", size := 4 + ([1, 2] : List Nat).length } :=
  C8_theorem.2.2 cfgWs fsC8 "/ws/img.dat" "/ws/img.dat" [1, 2]
    MAX_READ_FILE_SIZE (by decide) rfl rfl rfl (by decide)

/-- Claim C10: `min(max_depth or MAX_RECURSION_DEPTH,
MAX_RECURSION_DEPTH)` caps a positive caller-supplied depth at 20, but a
caller-supplied 0 is falsy in Python, so it selects the default ceiling
20 exactly like an absent argument; consequently `list_directory` with
`max_depth = 0` behaves identically to `list_directory` with no
`max_depth` at all. -/
theorem C10_theorem :
    (∀ n : Nat, 0 < n → effectiveMaxDepth (some n) = min n 20) ∧
    effectiveMaxDepth (some 0) = 20 ∧
    effectiveMaxDepth none = 20 ∧
    (∀ (cfg : SandboxCfg) (dfs : String → PathNode) (a : ListArgs),
      list_directory cfg dfs { a with maxDepth := some 0 } =
        list_directory cfg dfs { a with maxDepth := none }) := by
  refine ⟨?_, rfl, rfl, ?_⟩
  · intro n hn
    match n with
    | 0 => omega
    | m + 1 => rfl
  · intro cfg dfs a
    rfl

theorem C10_witness : 0 < 25 ∧ effectiveMaxDepth (some 25) = min 25 20 :=
  ⟨by decide, C10_theorem.1 25 (by decide)⟩

/-- Claim C9 (amended): every entry of a `list_directory` response has
type `"file"` or `"directory"` (never `"symlink"` or `"other"`), with
size 0 for directories; a symlink is reported with the type of its
resolved target, and an entry whose `stat` raises is omitted. -/
theorem C9_theorem :
    (∀ (cfg : SandboxCfg) (dfs : String → PathNode) (a : ListArgs)
        (r : ListResp), list_directory cfg dfs a = .ok r →
      ∀ d ∈ r.entries,
        (d.etype = "file" ∨ d.etype = "directory") ∧
        (d.etype = "directory" → d.size = 0)) ∧
    (∀ (parent n : String) (s : Nat),
      getEntryInfo parent (.symlinkFile n s) =
        some { path := parent ++ "/" ++ n, name := n, etype := "file",
               size := s }) ∧
    (∀ (parent n : String) (cs : List FSEntry),
      getEntryInfo parent (.symlinkDir n cs) =
        some { path := parent ++ "/" ++ n, name := n, etype := "directory",
               size := 0 }) ∧
    (∀ parent n, getEntryInfo parent (.symlinkBroken n) = none) := by
  refine ⟨?_, fun parent n s => rfl, fun parent n cs => rfl,
    fun parent n => rfl⟩
  intro cfg dfs a r h d hd
  rcases list_directory_mem cfg dfs a r h d hd with ⟨par, e, he⟩
  exact getEntryInfo_wf par e d he

def dfsC9 : String → PathNode :=
  fun p => if p = "/ws/d" then .dirNode [.symlinkFile "ln" 5] else .missing

def dC9 : DirEntry :=
  { path := "/ws/d/ln", name := "ln", etype := "file", size := 5 }

def rC9 : ListResp :=
  { ok := true, entries := [dC9], count := 1, truncated := false,
    path := "/ws/d" }

theorem C9_witness :
    (dC9.etype = "file" ∨ dC9.etype = "directory") ∧
    (dC9.etype = "directory" → dC9.size = 0) :=
  C9_theorem.1 cfgWs dfsC9 { path := "/ws/d" } rC9 rfl dC9 (by simp [rC9])

/-- Claim C9 counterexample: a directory holding one symlink whose
target is a regular file.  The claim predicts a `"symlink"` type for the
entry; the listing reports `"file"`. -/
theorem C9_counterexample :
    (list_directory cfgWs dfsC9 { path := "/ws/d" } = .ok rC9) ∧
    dC9.etype ≠ "symlink" :=
  ⟨rfl, by decide⟩

/-- Claim C7 (amended): a recursive listing with a pattern returns
exactly the specification listing — entries (files and directories
alike) appear when and only when their names match the pattern, entries
are collected only down to the depth bound, and recursion still descends
into non-matching directories — with `truncated = false`, whenever the
specification listing stays below the entry cap. -/
theorem C7_theorem (cfg : SandboxCfg) (dfs : String → PathNode)
    (a : ListArgs) (p : String → Bool) (children : List FSEntry)
    (resolved : String)
    (hpne : ¬ a.path = "")
    (hval : validate_path_in_sandbox cfg a.path = .ok (.valid resolved))
    (hdir : dfs resolved = .dirNode children)
    (hrec : a.recursive = true)
    (hpat : a.pattern = some p)
    (hcap : (specListing p (effectiveMaxDepth a.maxDepth) resolved 0
        children).length < MAX_DIRECTORY_ENTRIES) :
    (list_directory cfg dfs a =
      .ok { ok := true,
            entries := specListing p (effectiveMaxDepth a.maxDepth)
              resolved 0 children,
            count := (specListing p (effectiveMaxDepth a.maxDepth)
              resolved 0 children).length,
            truncated := false, path := resolved }) ∧
    ∀ d ∈ specListing p (effectiveMaxDepth a.maxDepth) resolved 0 children,
      p d.name = true := by
  constructor
  · unfold list_directory
    rw [if_neg hpne, hval]
    simp only []
    rw [hdir]
    simp only []
    rw [if_pos hrec]
    rw [if_neg (by omega : ¬ effectiveMaxDepth a.maxDepth < 0)]
    rw [hpat]
    rw [listRecGo_eq_spec p (effectiveMaxDepth a.maxDepth) children
      resolved hcap]
  · intro d hd
    exact specListing_matches p _ children resolved 0 d hd

/-- The fnmatch matcher for the pattern of the C7 scenario: on the names
occurring in `treeC7` (`sub`, `a.py`, `c.txt`, none containing wildcard
characters), `fnmatch.fnmatch(name, "*.py")` holds exactly for
`a.py`. -/
def pC7 : String → Bool := fun n => n == "a.py"

def treeC7 : List FSEntry :=
  [.dir "sub" [.file "a.py" 3], .file "c.txt" 2]

def dfsC7 : String → PathNode :=
  fun p => if p = "/ws/d" then .dirNode treeC7 else .missing

def argsC7 : ListArgs :=
  { path := "/ws/d", recursive := true, pattern := some pC7 }

def dC7 : DirEntry :=
  { path := "/ws/d/sub/a.py", name := "a.py", etype := "file", size := 3 }

theorem specListing_treeC7 : specListing pC7 20 "/ws/d" 0 treeC7 = [dC7] := by
  simp [specListing, treeC7, pC7, getEntryInfo, FSEntry.isDir,
    FSEntry.isFile, FSEntry.statRaises, FSEntry.statSize, FSEntry.name,
    FSEntry.childrenOf, dC7]

theorem C7_witness :
    (list_directory cfgWs dfsC7 argsC7 =
      .ok { ok := true,
            entries := specListing pC7 (effectiveMaxDepth argsC7.maxDepth)
              "/ws/d" 0 treeC7,
            count := (specListing pC7 (effectiveMaxDepth argsC7.maxDepth)
              "/ws/d" 0 treeC7).length,
            truncated := false, path := "/ws/d" }) ∧
    ∀ d ∈ specListing pC7 (effectiveMaxDepth argsC7.maxDepth) "/ws/d" 0
        treeC7, pC7 d.name = true :=
  C7_theorem cfgWs dfsC7 argsC7 pC7 treeC7 "/ws/d" (by decide) rfl rfl rfl
    rfl
    (by rw [show effectiveMaxDepth argsC7.maxDepth = 20 from rfl,
          specListing_treeC7]
        decide)

/-- Claim C7 counterexample: the tree holds a non-matching directory
`sub` (with a matching file inside).  The claim predicts a directory
entry for `sub` regardless of the pattern; the result contains only the
nested matching file, and its single entry is neither a directory entry
nor named `sub`. -/
theorem C7_counterexample :
    (list_directory cfgWs dfsC7 argsC7 =
      .ok { ok := true, entries := [dC7], count := 1, truncated := false,
            path := "/ws/d" }) ∧
    dC7.etype ≠ "directory" ∧ dC7.name ≠ "sub" := by
  have hcapc : (specListing pC7 20 "/ws/d" 0 treeC7).length <
      MAX_DIRECTORY_ENTRIES := by
    rw [specListing_treeC7]
    decide
  have h3 := listRecGo_eq_spec pC7 20 treeC7 "/ws/d" hcapc
  rw [specListing_treeC7] at h3
  refine ⟨?_, by decide, by decide⟩
  unfold list_directory argsC7
  simp only []
  rw [if_neg (by decide : ¬ ("/ws/d" : String) = "")]
  rw [show validate_path_in_sandbox cfgWs "/ws/d" =
    .ok (.valid "/ws/d") from rfl]
  simp only []
  rw [show dfsC7 "/ws/d" = PathNode.dirNode treeC7 from rfl]
  simp only [if_true]
  rw [show effectiveMaxDepth (none : Option Nat) = 20 from rfl]
  rw [if_neg (by omega : ¬ (20 : Nat) < 0)]
  rw [h3]
  rfl

end FsTools
